import Mathlib

/-!
Verification of the request/response pipeline and log-streaming decoder of the
kirimemail SMTP Node SDK (`src/client/SmtpClient.ts`, here `src/unnamed/part_003`,
together with the exception classes under `src/exceptions/`).

The development shallowly embeds the pieces of the client that the checked
properties are about:

* a model of JavaScript `JSON.parse` restricted to the JSON grammar (values are
  kept as parse trees; numeric literals are kept as their lexeme, since the
  decoder performs no arithmetic on them);
* the line-splitting / buffering loop of `SmtpClient.stream`;
* `handleError` / `makeRequest` error classification, including the fact that
  `error.response.json()` is used without `await` (the value named `errorData`
  in the source is a pending Promise);
* `addAuthentication` (Basic auth header, UTF-8 + base64 encoding as done by
  `Buffer.from(s).toString('base64')`), `setBasicAuth` and the constructor;
* the retry configuration passed to the `ky` HTTP backend together with ky's
  retry loop semantics (`limit` bounds the number of retries that follow the
  initial attempt), and ky's `prefixUrl` URL joining (which rejects an input
  beginning with a slash);
* `new URLSearchParams(params)` applied to a record, as done by `get`.

JavaScript strings are modelled as `List Char` (chunks arrive as text; all the
inputs exercised here are ASCII, so the UTF-16 versus scalar-value distinction
does not matter).
-/

/-- JSON value as produced by the modelled `JSON.parse`.  Numeric literals are
kept verbatim (the streaming decoder only passes parsed values through, it never
computes with them), and objects keep their fields in source order. -/
inductive Json where
  | null : Json
  | bool : Bool → Json
  | num : String → Json
  | str : String → Json
  | arr : List Json → Json
  | obj : List (String × Json) → Json
deriving Repr, Inhabited

/-- JSON insignificant whitespace: exactly space, tab, line feed, carriage
return (RFC 8259 / ECMA-404), the set skipped by `JSON.parse`. -/
def isJsonWs (c : Char) : Bool :=
  c == ' ' || c == '\t' || c == '\n' || c == '\r'

/-- Skip leading JSON whitespace. -/
def skipWs : List Char → List Char
  | [] => []
  | c :: cs => if isJsonWs c then skipWs cs else c :: cs

/-- Value of a hexadecimal digit, as accepted in a `\u` escape. -/
def hexDigitVal (c : Char) : Option Nat :=
  if '0' ≤ c ∧ c ≤ '9' then some (c.toNat - '0'.toNat)
  else if 'a' ≤ c ∧ c ≤ 'f' then some (c.toNat - 'a'.toNat + 10)
  else if 'A' ≤ c ∧ c ≤ 'F' then some (c.toNat - 'A'.toNat + 10)
  else none

/-- Single-character escapes allowed after a backslash in a JSON string. -/
def escapeChar (c : Char) : Option Char :=
  if c = '"' then some '"'
  else if c = '\\' then some '\\'
  else if c = '/' then some '/'
  else if c = 'b' then some (Char.ofNat 8)
  else if c = 'f' then some (Char.ofNat 12)
  else if c = 'n' then some '\n'
  else if c = 'r' then some '\r'
  else if c = 't' then some '\t'
  else none

/-- Turn a code point into a `Char`.  JavaScript strings are UTF-16 and may
hold lone surrogates; Lean characters are Unicode scalar values, so a lone
surrogate (which cannot occur in the claims' inputs) is mapped to U+FFFD. -/
def charOfCodePoint (n : Nat) : Char :=
  if n < 0xd800 ∨ (0xe000 ≤ n ∧ n < 0x110000) then Char.ofNat n
  else Char.ofNat 0xfffd

/-- Parse the body of a JSON string after the opening quote.  Returns the
string's characters and the input following the closing quote.  The fuel is
always at least the input length plus one, and every step consumes at least one
character, so the fuel never runs out on reachable inputs. -/
def parseStrChars : Nat → List Char → Option (List Char × List Char)
  | 0, _ => none
  | _ + 1, [] => none
  | fuel + 1, c :: rest =>
    if c = '"' then some ([], rest)
    else if c = '\\' then
      match rest with
      | [] => none
      | e :: rest1 =>
        if e = 'u' then
          match rest1 with
          | h1 :: h2 :: h3 :: h4 :: rest2 =>
            match hexDigitVal h1, hexDigitVal h2, hexDigitVal h3, hexDigitVal h4 with
            | some a, some b, some c3, some d =>
              let n := ((a * 16 + b) * 16 + c3) * 16 + d
              if 0xd800 ≤ n ∧ n ≤ 0xdbff then
                match rest2 with
                | '\\' :: 'u' :: g1 :: g2 :: g3 :: g4 :: rest3 =>
                  match hexDigitVal g1, hexDigitVal g2, hexDigitVal g3, hexDigitVal g4 with
                  | some a2, some b2, some c2, some d2 =>
                    let m := ((a2 * 16 + b2) * 16 + c2) * 16 + d2
                    if 0xdc00 ≤ m ∧ m ≤ 0xdfff then
                      match parseStrChars fuel rest3 with
                      | some (s, r) =>
                        some (charOfCodePoint
                          (0x10000 + (n - 0xd800) * 0x400 + (m - 0xdc00)) :: s, r)
                      | none => none
                    else
                      match parseStrChars fuel rest2 with
                      | some (s, r) => some (charOfCodePoint n :: s, r)
                      | none => none
                  | _, _, _, _ => none
                | _ =>
                  match parseStrChars fuel rest2 with
                  | some (s, r) => some (charOfCodePoint n :: s, r)
                  | none => none
              else
                match parseStrChars fuel rest2 with
                | some (s, r) => some (charOfCodePoint n :: s, r)
                | none => none
            | _, _, _, _ => none
          | _ => none
        else
          match escapeChar e with
          | some ec =>
            match parseStrChars fuel rest1 with
            | some (s, r) => some (ec :: s, r)
            | none => none
          | none => none
    else if c.toNat < 0x20 then none
    else
      match parseStrChars fuel rest with
      | some (s, r) => some (c :: s, r)
      | none => none

/-- Longest prefix of decimal digits. -/
def takeDigits : List Char → List Char × List Char
  | [] => ([], [])
  | c :: cs =>
    if c.isDigit then
      let (ds, r) := takeDigits cs
      (c :: ds, r)
    else ([], c :: cs)

/-- Integer part of a JSON number: `0`, or a nonzero digit followed by digits
(no leading zeros). -/
def parseIntPart : List Char → Option (List Char × List Char)
  | [] => none
  | c :: cs =>
    if c = '0' then some (['0'], cs)
    else if c.isDigit then
      let (ds, r) := takeDigits cs
      some (c :: ds, r)
    else none

/-- Optional fraction part: a dot must be followed by at least one digit. -/
def parseFracPart : List Char → Option (List Char × List Char)
  | '.' :: cs =>
    match takeDigits cs with
    | ([], _) => none
    | (ds, r) => some ('.' :: ds, r)
  | cs => some ([], cs)

/-- Optional exponent part: `e`/`E`, optional sign, at least one digit. -/
def parseExpPart : List Char → Option (List Char × List Char)
  | [] => some ([], [])
  | c :: cs =>
    if c = 'e' ∨ c = 'E' then
      let (sign, cs1) :=
        match cs with
        | '+' :: r => (['+'], r)
        | '-' :: r => (['-'], r)
        | r => (([] : List Char), r)
      match takeDigits cs1 with
      | ([], _) => none
      | (ds, r) => some (c :: (sign ++ ds), r)
    else some ([], c :: cs)

/-- Parse a JSON number, returning its lexeme. -/
def parseNumber (cs : List Char) : Option (List Char × List Char) :=
  let (sign, cs1) :=
    match cs with
    | '-' :: r => ((['-'] : List Char), r)
    | r => (([] : List Char), r)
  match parseIntPart cs1 with
  | none => none
  | some (ip, cs2) =>
    match parseFracPart cs2 with
    | none => none
    | some (fp, cs3) =>
      match parseExpPart cs3 with
      | none => none
      | some (ep, cs4) => some (sign ++ ip ++ fp ++ ep, cs4)

mutual

/-- Parse one JSON value (after skipping leading whitespace). -/
def parseVal : Nat → List Char → Option (Json × List Char)
  | 0, _ => none
  | fuel + 1, cs =>
    match skipWs cs with
    | [] => none
    | c :: rest =>
      if c = 'n' then
        match rest with
        | 'u' :: 'l' :: 'l' :: r => some (Json.null, r)
        | _ => none
      else if c = 't' then
        match rest with
        | 'r' :: 'u' :: 'e' :: r => some (Json.bool true, r)
        | _ => none
      else if c = 'f' then
        match rest with
        | 'a' :: 'l' :: 's' :: 'e' :: r => some (Json.bool false, r)
        | _ => none
      else if c = '"' then
        match parseStrChars (rest.length + 1) rest with
        | some (s, r) => some (Json.str (String.mk s), r)
        | none => none
      else if c = '[' then
        match skipWs rest with
        | ']' :: r => some (Json.arr [], r)
        | _ =>
          match parseItems fuel rest with
          | some (xs, r) => some (Json.arr xs, r)
          | none => none
      else if c = '{' then
        match skipWs rest with
        | '}' :: r => some (Json.obj [], r)
        | _ =>
          match parseFields fuel rest with
          | some (fs, r) => some (Json.obj fs, r)
          | none => none
      else if c = '-' ∨ c.isDigit then
        match parseNumber (c :: rest) with
        | some (lex, r) => some (Json.num (String.mk lex), r)
        | none => none
      else none

/-- Parse the comma-separated items of a nonempty array (after the `[`). -/
def parseItems : Nat → List Char → Option (List Json × List Char)
  | 0, _ => none
  | fuel + 1, cs =>
    match parseVal fuel cs with
    | none => none
    | some (v, r) =>
      match skipWs r with
      | ',' :: r2 =>
        match parseItems fuel r2 with
        | some (xs, r3) => some (v :: xs, r3)
        | none => none
      | ']' :: r2 => some ([v], r2)
      | _ => none

/-- Parse the fields of a nonempty object (after the `{`). -/
def parseFields : Nat → List Char → Option (List (String × Json) × List Char)
  | 0, _ => none
  | fuel + 1, cs =>
    match skipWs cs with
    | '"' :: rest =>
      match parseStrChars (rest.length + 1) rest with
      | none => none
      | some (k, r) =>
        match skipWs r with
        | ':' :: r2 =>
          match parseVal fuel r2 with
          | none => none
          | some (v, r3) =>
            match skipWs r3 with
            | ',' :: r4 =>
              match parseFields fuel r4 with
              | some (fs, r5) => some ((String.mk k, v) :: fs, r5)
              | none => none
            | '}' :: r4 => some ([(String.mk k, v)], r4)
            | _ => none
        | _ => none
    | _ => none

end

/-- Model of `JSON.parse` on a character list: parse one value and require that
only whitespace remains; on any violation of the grammar `JSON.parse` throws,
modelled as `none`. -/
def parseJsonChars (cs : List Char) : Option Json :=
  match parseVal (cs.length + 1) cs with
  | some (v, r) => if skipWs r = [] then some v else none
  | none => none

/-- Model of `JSON.parse` on a string. -/
def jsonParse (s : String) : Option Json :=
  parseJsonChars s.data

/-! ### Streaming decoder (`SmtpClient.stream`, part_003 lines 211-246)

The loop appends each decoded chunk to `buffer`, splits on `'\n'`, keeps the
last (possibly incomplete) line in `buffer`, and processes every complete line:
blank lines (`line.trim()` falsy) are skipped; a line starting with `data: `
has that prefix removed and, unless the remainder is the literal `[DONE]`,
is given to `JSON.parse`; any other line is given to `JSON.parse` whole; a
parse failure skips the line.  When the reader reports `done` the loop exits,
discarding whatever is left in `buffer`. -/

/-- Characters removed by JavaScript `String.prototype.trim` (WhiteSpace and
LineTerminator code points). -/
def jsWsChars : List Char :=
  [' ', '\t', '\n', '\r', '\x0b', '\x0c', '\u00a0', '\u1680', '\u2000',
   '\u2001', '\u2002', '\u2003', '\u2004', '\u2005', '\u2006', '\u2007',
   '\u2008', '\u2009', '\u200a', '\u2028', '\u2029', '\u202f', '\u205f',
   '\u3000', '\ufeff']

/-- Whether `c` is JavaScript whitespace (so `line.trim()` removes it). -/
def isJsWs (c : Char) : Bool := jsWsChars.contains c

/-- Split a character list on `'\n'`, keeping empty segments; mirrors
JavaScript `buffer.split('\n')`, which always returns at least one element. -/
def splitLines : List Char → List (List Char)
  | [] => [[]]
  | c :: cs =>
    match splitLines cs with
    | [] => [[]]
    | l :: ls => if c = '\n' then [] :: l :: ls else (c :: l) :: ls

/-- Fused form of split-and-pop: the complete lines of a character list
together with the trailing line left after the last `'\n'`.  Related to
`splitLines` by `splitLines_eq_linesAux` below; this form composes under
append, which is what the chunk-buffering proofs need. -/
def linesAux : List Char → List (List Char) × List Char
  | [] => ([], [])
  | c :: cs =>
    let (ls, tail) := linesAux cs
    if c = '\n' then ([] :: ls, tail)
    else
      match ls with
      | [] => ([], c :: tail)
      | l :: ls' => ((c :: l) :: ls', tail)

/-- The complete (newline-terminated) lines of a character sequence: what the
loop parses, the trailing remainder being kept in the buffer. -/
def completeLines (cs : List Char) : List (List Char) :=
  (linesAux cs).1

/-- The Server-Sent-Events data marker `"data: "` (6 characters). -/
def dataMark : List Char := "data: ".data

/-- The end-of-stream sentinel payload `"[DONE]"`. -/
def doneSentinel : List Char := "[DONE]".data

/-- Processing of one complete line by the loop body of `stream`: the record
it yields, if any. -/
def processLine (line : List Char) : Option Json :=
  if line.all isJsWs then none
  else if line.take 6 = dataMark then
    let d := line.drop 6
    if d = doneSentinel then none else parseJsonChars d
  else parseJsonChars line

/-- The records yielded by the `stream` read loop, starting from buffer `buf`,
for a given sequence of (already text-decoded) chunks. -/
def streamRun : List Char → List (List Char) → List Json
  | _, [] => []
  | buf, chunk :: rest =>
    let parts := splitLines (buf ++ chunk)
    parts.dropLast.filterMap processLine ++ streamRun (parts.getLastD []) rest

/-- The full sequence of records `SmtpClient.stream` yields for a chunk
sequence (initial buffer empty, leftover buffer discarded at end of stream). -/
def streamRecords (chunks : List String) : List Json :=
  streamRun [] (chunks.map String.data)

/-- Payload selection described by the spec: the remainder after the `data: `
prefix when the line carries it, the whole line otherwise. -/
def stripData (line : List Char) : List Char :=
  if line.take 6 = dataMark then line.drop 6 else line

/-! ### Exceptions (`src/exceptions/*.ts`) and `handleError`

Each exception class is modelled by the record it carries.  `statusCode` and
`errors` are those stored by the class constructors: `ApiException(message,
statusCode?, errors?)` stores what it is given; `ValidationException` passes
`422`, `AuthenticationException` `401`, `NotFoundException` `404`,
`ServerException` `500`. -/

/-- The observable state of a thrown exception. -/
structure ExceptionRecord where
  name : String
  message : String
  statusCode : Option Nat
  errors : Option Json
deriving Repr

/-- Constructor of `ApiException` (base class). -/
def ApiException.make (message : String) (statusCode : Option Nat)
    (errors : Option Json) : ExceptionRecord :=
  ⟨"ApiException", message, statusCode, errors⟩

/-- Constructor of `ValidationException`: always `super(message, 422, errors)`. -/
def ValidationException.make (message : String) (errors : Option Json) :
    ExceptionRecord :=
  ⟨"ValidationException", message, some 422, errors⟩

/-- Constructor of `AuthenticationException`: always `super(message, 401)`. -/
def AuthenticationException.make (message : String) : ExceptionRecord :=
  ⟨"AuthenticationException", message, some 401, none⟩

/-- Constructor of `NotFoundException`: always `super(message, 404)`. -/
def NotFoundException.make (message : String) : ExceptionRecord :=
  ⟨"NotFoundException", message, some 404, none⟩

/-- Constructor of `ServerException`: always `super(message, 500)`. -/
def ServerException.make (message : String) : ExceptionRecord :=
  ⟨"ServerException", message, some 500, none⟩

/-- A JavaScript value as it flows through `handleError`.  The source assigns
`errorData = error.response.json()` WITHOUT `await`, so `errorData` is a
pending Promise object, not the parsed body; the `value` constructor records
what the awaited body would have been. -/
inductive JsVal where
  | promise : Json → JsVal
  | value : Json → JsVal

/-- First-match lookup in an association list (JavaScript object keys are
unique, so first match is the only match on values built by the code). -/
def assocLookup {α : Type} : List (String × α) → String → Option α
  | [], _ => none
  | (k, v) :: rest, key => if k = key then some v else assocLookup rest key

/-- JavaScript property access `v.field`, `none` meaning `undefined`.  A
Promise has no own data properties, so every access on it is `undefined`. -/
def JsVal.getField : JsVal → String → Option Json
  | .promise _, _ => none
  | .value (Json.obj fields), key => assocLookup fields key
  | .value _, _ => none

/-- Whether the digits of a JSON number lexeme make it zero (its exponent
cannot change that). -/
def isZeroNumLexeme (lex : String) : Bool :=
  (lex.data.takeWhile (fun c => c ≠ 'e' ∧ c ≠ 'E')).all
    (fun c => !c.isDigit || c = '0')

/-- JavaScript truthiness of a JSON value. -/
def jsTruthy : Json → Bool
  | .null => false
  | .bool b => b
  | .num lex => !isZeroNumLexeme lex
  | .str s => !s.isEmpty
  | .arr _ => true
  | .obj _ => true

/-- String coercion applied when a value ends up as an `Error` message. -/
def jsDisplayString : Json → String
  | .null => "null"
  | .bool true => "true"
  | .bool false => "false"
  | .num lex => lex
  | .str s => s
  | .arr _ => ""
  | .obj _ => "[object Object]"

/-- The field value if it is truthy, as used by `a || b || fallback`. -/
def truthyField (v : JsVal) (key : String) : Option Json :=
  match v.getField key with
  | some j => if jsTruthy j then some j else none
  | none => none

/-- The computation `errorData.message || errorData.error || 'Unknown API
error'` from `handleError` (part_003 line 322). -/
def handleErrorMessage (errorData : JsVal) : String :=
  match truthyField errorData "message" with
  | some j => jsDisplayString j
  | none =>
    match truthyField errorData "error" with
    | some j => jsDisplayString j
    | none => "Unknown API error"

/-- Model of `handleError` (part_003 lines 309-338) on an `HTTPError` carrying
the given response status and JSON body.  `errorData` is the un-awaited
Promise returned by `error.response.json()`; the `try`/`catch` around that
assignment can never fire because `json()` does not throw synchronously. -/
def handleError (status : Nat) (body : Json) : ExceptionRecord :=
  let errorData : JsVal := JsVal.promise body
  let message := handleErrorMessage errorData
  if status = 400 ∨ status = 422 then
    ValidationException.make message (errorData.getField "errors")
  else if status = 401 ∨ status = 403 then
    AuthenticationException.make message
  else if status = 404 then
    NotFoundException.make message
  else if 500 ≤ status then
    ServerException.make message
  else
    ApiException.make message (some status) none

/-- Model of `makeRequest` (part_003 lines 255-281) at the level of the
response it receives: on an ok status (200-299) the parsed body is returned;
otherwise the ky backend throws `HTTPError`, which the `catch` routes through
`handleError`, so the call never returns normally. -/
def makeRequest (status : Nat) (body : Json) : Except ExceptionRecord Json :=
  if 200 ≤ status ∧ status ≤ 299 then Except.ok body
  else Except.error (handleError status body)

/-! ### Authentication (`addAuthentication`, part_003 lines 286-296)

`Buffer.from(authString)` encodes the string as UTF-8 and
`.toString('base64')` is standard base64 with padding. -/

/-- Basic auth credential pair (`src/types`). -/
structure BasicAuthCredentials where
  username : String
  token : String
deriving Repr, DecidableEq

/-- UTF-8 encoding of one character. -/
def utf8EncodeChar (c : Char) : List Nat :=
  let n := c.toNat
  if n < 0x80 then [n]
  else if n < 0x800 then [0xc0 + n / 64, 0x80 + n % 64]
  else if n < 0x10000 then
    [0xe0 + n / 4096, 0x80 + n / 64 % 64, 0x80 + n % 64]
  else
    [0xf0 + n / 262144, 0x80 + n / 4096 % 64, 0x80 + n / 64 % 64, 0x80 + n % 64]

/-- UTF-8 bytes of a string, as produced by `Buffer.from(s)`. -/
def utf8Bytes (s : String) : List Nat :=
  s.data.foldr (fun c acc => utf8EncodeChar c ++ acc) []

/-- The base64 alphabet. -/
def base64Alphabet : List Char :=
  "ABCDEFGHIJKLMNOPQRSTUVWXYZabcdefghijklmnopqrstuvwxyz0123456789+/".data

/-- Character for a 6-bit group. -/
def base64Char (n : Nat) : Char := base64Alphabet.getD n 'A'

/-- Standard base64 with `=` padding over a byte list. -/
def base64Chars : List Nat → List Char
  | [] => []
  | [b1] =>
    [base64Char (b1 / 4), base64Char (b1 % 4 * 16), '=', '=']
  | [b1, b2] =>
    [base64Char (b1 / 4), base64Char (b1 % 4 * 16 + b2 / 16),
     base64Char (b2 % 16 * 4), '=']
  | b1 :: b2 :: b3 :: rest =>
    base64Char (b1 / 4) :: base64Char (b1 % 4 * 16 + b2 / 16) ::
      base64Char (b2 % 16 * 4 + b3 / 64) :: base64Char (b3 % 64) ::
      base64Chars rest

/-- Model of `Buffer.from(s).toString('base64')`. -/
def base64OfString (s : String) : String :=
  String.mk (base64Chars (utf8Bytes s))

/-- JavaScript object-key assignment `headers[k] = v` on a header map:
overwrite the existing entry if the key is present, append otherwise. -/
def setHeader (hs : List (String × String)) (k v : String) :
    List (String × String) :=
  if hs.any (fun p => p.1 = k) then
    hs.map (fun p => if p.1 = k then (k, v) else p)
  else hs ++ [(k, v)]

/-- Client state relevant to the claims: credentials and base URL
(`SmtpClient` fields, part_003 lines 20-22). -/
structure SmtpClient where
  basicAuth : Option BasicAuthCredentials
  baseUrl : List Char
deriving Repr, DecidableEq

/-- Strip the single optional trailing slash, `baseUrl.replace(/\/$/, '')`
(part_003 line 36). -/
def stripTrailingSlash (url : List Char) : List Char :=
  if url.getLast? = some '/' then url.dropLast else url

/-- The constructor (part_003 lines 31-58): credentials are stored only when
`username && token` is truthy, i.e. both are present and nonempty. -/
def SmtpClient.create (username token : Option String) (baseUrl : List Char) :
    SmtpClient :=
  { baseUrl := stripTrailingSlash baseUrl
    basicAuth :=
      match username, token with
      | some u, some t => if u ≠ "" ∧ t ≠ "" then some ⟨u, t⟩ else none
      | _, _ => none }

/-- `setBasicAuth` (part_003 lines 395-397): unconditionally replaces the
credential pair. -/
def SmtpClient.setBasicAuth (c : SmtpClient) (username token : String) :
    SmtpClient :=
  { c with basicAuth := some ⟨username, token⟩ }

/-- `addAuthentication` (part_003 lines 286-296): when credentials are
configured, set `Authorization` to `Basic base64(username + ':' + token)`;
otherwise leave the headers unchanged. -/
def addAuthentication (c : SmtpClient) (headers : List (String × String)) :
    List (String × String) :=
  match c.basicAuth with
  | some cred =>
    setHeader headers "Authorization"
      ("Basic " ++ base64OfString (cred.username ++ ":" ++ cred.token))
  | none => headers

/-- Headers sent by `makeRequest` (part_003 line 260): every verb helper
(`get`, `post`, `postMultipart`, `put`, `delete`) goes through it. -/
def makeRequestHeaders (c : SmtpClient) (headers : List (String × String)) :
    List (String × String) :=
  addAuthentication c headers

/-- Headers sent by `stream` (part_003 line 198), which calls the same
`addAuthentication`. -/
def streamRequestHeaders (c : SmtpClient) (headers : List (String × String)) :
    List (String × String) :=
  addAuthentication c headers

/-! ### Retry (`ky` configuration, part_003 lines 44-57)

The constructor configures the ky backend with `retry: \x7b limit: 3, methods:
[get, put, delete, head, trace, options], statusCodes: [408, 413, 429, 500,
502, 503, 504] \x7d`.  The loop itself lives in the ky dependency.  A request
whose method is not in `methods` is executed exactly once.  Otherwise, after a
non-ok response, ky's retry-delay computation decides whether another attempt
is made; `limit` counts the retries made AFTER the initial attempt, and with
a failed attempt the run retries only when all of the following hold:

* fewer than `limit` retries have been used;
* the status is in `statusCodes`;
* either the response carries a usable `Retry-After` header and the status is
  in ky's fixed `afterStatusCodes` list `[413, 429, 503]` (the header's delay
  is honoured; the SDK leaves `maxRetryAfter` at its infinite default, so the
  delay never disqualifies the retry), or — with no such header — the status
  is not 413: ky treats a bare 413 (Payload Too Large without `Retry-After`)
  as permanent and rethrows it without retrying. -/

/-- The `retry` options object given to `ky.create`. -/
structure RetryOptions where
  limit : Nat
  methods : List String
  statusCodes : List Nat
deriving Repr, DecidableEq

/-- The configuration from the `SmtpClient` constructor. -/
def defaultRetryOptions : RetryOptions :=
  { limit := 3
    methods := ["get", "put", "delete", "head", "trace", "options"]
    statusCodes := [408, 413, 429, 500, 502, 503, 504] }

/-- ky's fixed `afterStatusCodes`: the statuses whose `Retry-After` header is
honoured. -/
def kyRetryAfterStatusCodes : List Nat := [413, 429, 503]

/-- One scripted response of an underlying HTTP call: its status, and whether
it carries a `Retry-After` header with a usable (positive, parseable) delay. -/
structure KyResponse where
  status : Nat
  hasRetryAfter : Bool
deriving Repr, DecidableEq

/-- A response without a `Retry-After` header. -/
def bare (status : Nat) : KyResponse := ⟨status, false⟩

/-- A response carrying a usable `Retry-After` header. -/
def withRetryAfter (status : Nat) : KyResponse := ⟨status, true⟩

/-- ky's per-response retry decision (given budget remains and the method is
retryable): the status must be in `statusCodes`, and a 413 is retried only
when its `Retry-After` header is present (413 is in `afterStatusCodes`). -/
def kyRetries (opts : RetryOptions) (r : KyResponse) : Prop :=
  r.status ∈ opts.statusCodes ∧
    ((r.hasRetryAfter = true ∧ r.status ∈ kyRetryAfterStatusCodes) ∨
      r.status ≠ 413)

instance (opts : RetryOptions) (r : KyResponse) : Decidable (kyRetries opts r) := by
  unfold kyRetries
  infer_instance

/-- One run of ky's retry loop.  `responses` scripts the outcome of each
successive underlying HTTP call; `retriesUsed` counts retries so far.  The
result is the final outcome (ok status or thrown `HTTPError` status) together
with the number of underlying HTTP calls made; `none` means the script was
too short to finish the run. -/
def kyRetryRun (opts : RetryOptions) (method : String) :
    Nat → List KyResponse → Option (Except Nat Nat × Nat)
  | _, [] => none
  | retriesUsed, r :: rest =>
    if 200 ≤ r.status ∧ r.status ≤ 299 then some (Except.ok r.status, 1)
    else if method ∈ opts.methods ∧ retriesUsed < opts.limit ∧
        kyRetries opts r then
      match kyRetryRun opts method (retriesUsed + 1) rest with
      | some (res, n) => some (res, n + 1)
      | none => none
    else some (Except.error r.status, 1)

/-- A fresh request: no retries used yet. -/
def runRequest (opts : RetryOptions) (method : String)
    (responses : List KyResponse) : Option (Except Nat Nat × Nat) :=
  kyRetryRun opts method 0 responses

/-! ### URL construction

The constructor strips one trailing slash from the base URL and passes it to
ky as `prefixUrl`.  ky's join: if the input starts with `/` it throws
(`input must not begin with a slash when using prefixUrl`); otherwise it
appends the input to the prefix, first appending `/` to the prefix if the
prefix does not already end with one. -/

/-- ky's `prefixUrl` joining; `none` models the error thrown when the input
starts with a slash. -/
def kyJoinUrl (pre input : List Char) : Option (List Char) :=
  if input.head? = some '/' then none
  else some ((if pre.getLast? = some '/' then pre else pre ++ ['/']) ++ input)

/-- The URL a request to `endpoint` is sent to, for a client constructed with
`baseUrl`. -/
def effectiveUrl (baseUrl endpoint : List Char) : Option (List Char) :=
  kyJoinUrl (stripTrailingSlash baseUrl) endpoint

/-! ### Query parameters (`get`, part_003 lines 63-78)

`get` builds `new URLSearchParams(params)` from the caller's record.  The
WebIDL record conversion takes every own enumerable property and converts its
value with the ECMAScript ToString rule — including `undefined`, which becomes
the literal string `"undefined"`.  Keys absent from the record are simply not
own properties and are omitted. -/

/-- A primitive JavaScript value appearing in a query-parameter record. -/
inductive JsPrim where
  | undef : JsPrim
  | nullV : JsPrim
  | boolV : Bool → JsPrim
  | intV : Int → JsPrim
  | strV : String → JsPrim
deriving Repr, DecidableEq

/-- The single canonical stringification rule (ECMAScript ToString) applied by
the record conversion. -/
def jsToString : JsPrim → String
  | .undef => "undefined"
  | .nullV => "null"
  | .boolV true => "true"
  | .boolV false => "false"
  | .intV n => toString n
  | .strV s => s

/-- Model of `new URLSearchParams(params)` on a record: one pair per own
property, values stringified. -/
def URLSearchParams.ofRecord (params : List (String × JsPrim)) :
    List (String × String) :=
  params.map (fun p => (p.1, jsToString p.2))

/-! ## Lemmas about the streaming decoder -/

theorem splitLines_ne_nil (cs : List Char) : splitLines cs ≠ [] := by
  cases cs with
  | nil => simp [splitLines]
  | cons c cs =>
    simp only [splitLines]
    cases splitLines cs with
    | nil => simp
    | cons l ls => by_cases hc : c = '\n' <;> simp [hc]

theorem splitLines_eq_linesAux (cs : List Char) :
    splitLines cs = (linesAux cs).1 ++ [(linesAux cs).2] := by
  induction cs with
  | nil => simp [splitLines, linesAux]
  | cons c cs ih =>
    simp only [splitLines, linesAux]
    cases hla : linesAux cs with
    | mk ls tail =>
      rw [hla] at ih
      simp only at ih
      cases ls with
      | nil =>
        simp only [ih]
        by_cases hc : c = '\n' <;> simp [hc]
      | cons l1 ls1 =>
        simp only [ih]
        by_cases hc : c = '\n' <;> simp [hc]

theorem linesAux_no_newline {cs : List Char} (h : '\n' ∉ cs) :
    linesAux cs = ([], cs) := by
  induction cs with
  | nil => rfl
  | cons c cs ih =>
    simp only [List.mem_cons, not_or] at h
    have hc : ¬(c = '\n') := fun hcc => h.1 hcc.symm
    simp [linesAux, ih h.2, hc]

theorem newline_not_mem_linesAux_tail (cs : List Char) :
    '\n' ∉ (linesAux cs).2 := by
  induction cs with
  | nil => simp [linesAux]
  | cons c cs ih =>
    simp only [linesAux]
    cases hla : linesAux cs with
    | mk ls tail =>
      rw [hla] at ih
      simp only at ih
      by_cases hc : c = '\n'
      · simp [hc, ih]
      · cases ls with
        | nil =>
          simp only [if_neg hc]
          simp only [List.mem_cons, not_or]
          exact ⟨fun h => hc h.symm, ih⟩
        | cons l ls' => simp [hc, ih]

theorem linesAux_append (a b : List Char) :
    linesAux (a ++ b) =
      ((linesAux a).1 ++ (linesAux ((linesAux a).2 ++ b)).1,
        (linesAux ((linesAux a).2 ++ b)).2) := by
  induction a with
  | nil => simp [linesAux]
  | cons c a ih =>
    cases hla : linesAux a with
    | mk lsa ta =>
      rw [hla] at ih
      simp only at ih
      simp only [List.cons_append, linesAux]
      by_cases hc : c = '\n'
      · simp [hc, hla, ih]
      · cases lsa with
        | nil =>
          cases hx : linesAux (ta ++ b) with
          | mk xs xt =>
            rw [hx] at ih
            simp only [List.nil_append] at ih
            cases xs with
            | nil => simp [linesAux, ih, hla, hx, hc]
            | cons x1 xs1 => simp [linesAux, ih, hla, hx, hc]
        | cons l1 ls1 =>
          simp [hla, hc, ih]

theorem streamRun_eq :
    ∀ (chunks : List (List Char)) (buf : List Char), '\n' ∉ buf →
      streamRun buf chunks =
        (completeLines (buf ++ chunks.flatten)).filterMap processLine := by
  intro chunks
  induction chunks with
  | nil =>
    intro buf hb
    simp [streamRun, completeLines, linesAux_no_newline hb]
  | cons chunk rest ih =>
    intro buf hb
    have hsplit := splitLines_eq_linesAux (buf ++ chunk)
    simp only [streamRun, hsplit]
    rw [List.dropLast_concat]
    have hlast :
        ((linesAux (buf ++ chunk)).1 ++ [(linesAux (buf ++ chunk)).2]).getLastD []
          = (linesAux (buf ++ chunk)).2 := by
      simp [List.getLastD_eq_getLast?, List.getLast?_concat]
    rw [hlast, ih _ (newline_not_mem_linesAux_tail _)]
    simp only [completeLines, List.flatten_cons, ← List.append_assoc]
    rw [linesAux_append (buf ++ chunk) rest.flatten]
    simp [List.filterMap_append]

theorem isJsWs_mem {c : Char} (h : isJsWs c = true) : c ∈ jsWsChars := by
  simpa [isJsWs, List.elem_iff] using h

theorem jsWs_not_value_start :
    ∀ c ∈ jsWsChars,
      ¬(c = 'n' ∨ c = 't' ∨ c = 'f' ∨ c = '"' ∨ c = '[' ∨ c = '{' ∨
        c = '-' ∨ c.isDigit = true) := by
  decide

theorem skipWs_all_jsWs {cs : List Char} (h : ∀ c ∈ cs, isJsWs c = true) :
    skipWs cs = [] ∨
      ∃ c rest, skipWs cs = c :: rest ∧ isJsWs c = true ∧ isJsonWs c = false := by
  induction cs with
  | nil => left; rfl
  | cons c cs ih =>
    simp only [skipWs]
    by_cases hw : isJsonWs c = true
    · simp only [hw, if_true]
      exact ih fun x hx => h x (List.mem_cons_of_mem _ hx)
    · simp only [hw, if_false, Bool.false_eq_true]
      right
      exact ⟨c, cs, by simp [hw], h c (List.mem_cons_self _ _),
        by simpa using hw⟩

theorem parseVal_all_jsWs {cs : List Char} (h : ∀ c ∈ cs, isJsWs c = true) :
    ∀ fuel, parseVal fuel cs = none := by
  intro fuel
  cases fuel with
  | zero => rfl
  | succ fuel =>
    rcases skipWs_all_jsWs h with hnil | ⟨c, rest, heq, hws, _⟩
    · simp [parseVal, hnil]
    · have hns := jsWs_not_value_start c (isJsWs_mem hws)
      simp only [not_or] at hns
      obtain ⟨h1, h2, h3, h4, h5, h6, h7, h8⟩ := hns
      simp [parseVal, heq, h1, h2, h3, h4, h5, h6, h7, h8]

theorem parseJsonChars_all_jsWs {cs : List Char} (h : cs.all isJsWs = true) :
    parseJsonChars cs = none := by
  have h' : ∀ c ∈ cs, isJsWs c = true := by simpa [List.all_eq_true] using h
  simp [parseJsonChars, parseVal_all_jsWs h']

theorem blank_not_dataMark {l : List Char} (h : l.all isJsWs = true) :
    ¬(l.take 6 = dataMark) := by
  intro ht
  cases l with
  | nil => exact absurd ht (by decide)
  | cons c cs =>
    rw [List.take_succ_cons, show dataMark = 'd' :: "ata: ".data from rfl] at ht
    simp only [List.cons.injEq] at ht
    have hc : isJsWs c = true := by
      simp only [List.all_cons, Bool.and_eq_true] at h
      exact h.1
    rw [ht.1] at hc
    exact absurd hc (by decide)

theorem processLine_eq (l : List Char) :
    processLine l = parseJsonChars (stripData l) := by
  by_cases hb : l.all isJsWs = true
  · have h1 : stripData l = l := by simp [stripData, blank_not_dataMark hb]
    rw [h1]
    simp [processLine, hb, parseJsonChars_all_jsWs hb]
  · simp only [processLine, stripData, hb, if_false, Bool.false_eq_true]
    by_cases hd : l.take 6 = dataMark
    · simp only [if_pos hd]
      by_cases hs : l.drop 6 = doneSentinel
      · have hdone : parseJsonChars doneSentinel = none := rfl
        rw [if_pos hs, hs, hdone]
      · rw [if_neg hs]
    · simp [hd]

/-! ## Claims about the streaming decoder -/

/-- C3, counterexample.  The claim says that after a `data: [DONE]` line no
further records are yielded from any later bytes.  In the code the sentinel
check only skips the `yield` for that line; the read loop continues, so a
record arriving after the sentinel IS yielded: with chunks
`"data: [DONE]\n"`, `"data: \x7b\"a\":3\x7d\n"` the decoder yields the record
`\x7ba:3\x7d`. -/
theorem c3_counterexample :
    streamRecords ["data: [DONE]\n", "data: \x7b\"a\":3\x7d\n"] =
      [Json.obj [("a", Json.num "3")]] ∧
    streamRecords ["data: [DONE]\n", "data: \x7b\"a\":3\x7d\n"] ≠ [] := by
  refine ⟨rfl, fun h => ?_⟩
  rw [show streamRecords ["data: [DONE]\n", "data: \x7b\"a\":3\x7d\n"] =
      [Json.obj [("a", Json.num "3")]] from rfl] at h
  exact List.cons_ne_nil _ _ h

/-- C3, amended.  A complete line consisting of the SSE data prefix followed
by the literal sentinel `[DONE]` yields no record and raises no error, and in
the quoted example (where the sentinel line is the last input) exactly the two
records are yielded and the stream then ends; however the decoder does not
terminate at the sentinel — complete lines after it are still processed
(see the counterexample). -/
theorem c3_sentinel_skipped :
    processLine ("data: [DONE]".data) = none ∧
    streamRecords
        ["data: \x7b\"a\":1\x7d\n", "data: \x7b\"a\":2\x7d\n", "data: [DONE]\n"] =
      [Json.obj [("a", Json.num "1")], Json.obj [("a", Json.num "2")]] :=
  ⟨rfl, rfl⟩

/-- C4: the decoder buffers the trailing incomplete line of each chunk, so the
records depend only on the concatenation of the chunks: any split of the input
across chunk boundaries — in particular any split of a single valid JSON line
— yields exactly the records of the unsplit input; e.g. the chunks
`"data: \x7b\"a\":"` and `"1\x7d\n"` yield the one record `\x7ba:1\x7d`. -/
theorem c4_chunk_buffering :
    (∀ chunks : List (List Char), streamRun [] chunks = streamRun [] [chunks.flatten]) ∧
    (∀ c1 c2 : String, streamRecords [c1, c2] = streamRecords [c1 ++ c2]) ∧
    streamRecords ["data: \x7b\"a\":", "1\x7d\n"] = [Json.obj [("a", Json.num "1")]] := by
  refine ⟨fun chunks => ?_, fun c1 c2 => ?_, rfl⟩
  · rw [streamRun_eq chunks [] (by simp), streamRun_eq [chunks.flatten] [] (by simp)]
    simp
  · show streamRun [] [c1.data, c2.data] = streamRun [] [(c1 ++ c2).data]
    rw [String.data_append,
      streamRun_eq [c1.data, c2.data] [] (by simp),
      streamRun_eq [c1.data ++ c2.data] [] (by simp)]
    simp

/-- C5: for every chunk sequence, the yielded records are exactly the
JSON-parseable complete lines of the concatenated input — taking the remainder
after the `data: ` prefix when present, the whole line otherwise — one record
per line, in arrival order; a line that fails to parse contributes nothing and
affects nothing else (the decoder is a total function, so no error is raised).
The concrete conjunct shows a malformed line between two valid ones being
skipped silently. -/
theorem c5_yielded_records :
    (∀ chunks : List String,
      streamRecords chunks =
        (completeLines ((chunks.map String.data).flatten)).filterMap
          (fun l => parseJsonChars (stripData l))) ∧
    streamRecords ["data: \x7b\"a\":1\x7d\nnot json\ndata: \x7b\"a\":2\x7d\n"] =
      [Json.obj [("a", Json.num "1")], Json.obj [("a", Json.num "2")]] := by
  refine ⟨fun chunks => ?_, rfl⟩
  rw [streamRecords, streamRun_eq _ [] (by simp), List.nil_append,
    show processLine = fun l => parseJsonChars (stripData l) from funext processLine_eq]

/-! ## Claims about error classification -/

/-- C1: for every response with status ≥ 400 reaching `makeRequest`, the call
throws (never returns), and the class of the thrown exception is determined by
the status alone: 400/422 → ValidationException, 401/403 →
AuthenticationException, 404 → NotFoundException, ≥500 → ServerException, and
any other status an ApiException carrying that status. -/
theorem c1_error_classification (status : Nat) (body : Json) (h : 400 ≤ status) :
    makeRequest status body = Except.error (handleError status body) ∧
    (handleError status body).name =
      (if status = 400 ∨ status = 422 then "ValidationException"
       else if status = 401 ∨ status = 403 then "AuthenticationException"
       else if status = 404 then "NotFoundException"
       else if 500 ≤ status then "ServerException"
       else "ApiException") ∧
    (¬(status = 400 ∨ status = 422) → ¬(status = 401 ∨ status = 403) →
      status ≠ 404 → ¬(500 ≤ status) →
      (handleError status body).statusCode = some status) := by
  refine ⟨?_, ?_, ?_⟩
  · rw [makeRequest, if_neg (by omega)]
  · simp only [handleError]
    split_ifs <;> rfl
  · intro h1 h2 h3 h4
    simp only [handleError]
    rw [if_neg h1, if_neg h2, if_neg h3, if_neg h4]
    rfl

/-- Witness for C1 at the concrete status 418. -/
theorem c1_witness :
    400 ≤ 418 ∧
      (makeRequest 418 Json.null = Except.error (handleError 418 Json.null) ∧
       (handleError 418 Json.null).name =
         (if (418 : Nat) = 400 ∨ (418 : Nat) = 422 then "ValidationException"
          else if (418 : Nat) = 401 ∨ (418 : Nat) = 403 then "AuthenticationException"
          else if (418 : Nat) = 404 then "NotFoundException"
          else if 500 ≤ (418 : Nat) then "ServerException"
          else "ApiException") ∧
       (¬((418 : Nat) = 400 ∨ (418 : Nat) = 422) →
         ¬((418 : Nat) = 401 ∨ (418 : Nat) = 403) →
         (418 : Nat) ≠ 404 → ¬(500 ≤ (418 : Nat)) →
         (handleError 418 Json.null).statusCode = some 418)) :=
  ⟨by decide, c1_error_classification 418 Json.null (by decide)⟩

/-- C2 (code bug): `handleError` assigns `errorData = error.response.json()`
without `await`, so `errorData` is a pending Promise, every property access on
it is `undefined`, and the server-supplied message and field-error map never
reach the thrown exception: the message is always the fallback
`"Unknown API error"` and the `errors` map is always absent — in particular a
404 whose body carries `message: "Domain not found"` produces a
NotFoundException with message `"Unknown API error"`. -/
theorem c2_error_body_ignored :
    (handleError 404 (Json.obj [("message", Json.str "Domain not found")])).message
        = "Unknown API error" ∧
    (handleError 404 (Json.obj [("message", Json.str "Domain not found")])).message
        ≠ "Domain not found" ∧
    (handleError 422 (Json.obj [("message", Json.str "Validation failed"),
        ("errors", Json.obj [("to", Json.arr [Json.str "required"])])])).errors
        = none ∧
    (∀ status body, (handleError status body).message = "Unknown API error") ∧
    (∀ status body, (handleError status body).errors = none) := by
  refine ⟨rfl, by decide, rfl, fun status body => ?_, fun status body => ?_⟩
  · simp only [handleError]
    split_ifs <;> rfl
  · simp only [handleError]
    split_ifs <;> rfl

/-- C10: the `statusCode` of a thrown exception is a per-class constant fixed
by the exception constructors, not the received HTTP status: ValidationException
always 422 (even for a 400), AuthenticationException always 401 (even for a
403), NotFoundException 404, ServerException always 500 for every status ≥ 500;
only the plain ApiException branch stores the actual received status. -/
theorem c10_statusCode_constants (status : Nat) (body : Json) :
    ((status = 400 ∨ status = 422) →
      (handleError status body).statusCode = some 422) ∧
    ((status = 401 ∨ status = 403) →
      (handleError status body).statusCode = some 401) ∧
    (status = 404 → (handleError status body).statusCode = some 404) ∧
    (500 ≤ status → (handleError status body).statusCode = some 500) ∧
    (handleError 400 body).statusCode ≠ some 400 ∧
    (handleError 403 body).statusCode ≠ some 403 ∧
    (500 < status → (handleError status body).statusCode ≠ some status) ∧
    (400 ≤ status → ¬(status = 400 ∨ status = 422) →
      ¬(status = 401 ∨ status = 403) → status ≠ 404 → ¬(500 ≤ status) →
      (handleError status body).statusCode = some status) := by
  refine ⟨?_, ?_, ?_, ?_, ?_, ?_, ?_, ?_⟩
  · rintro (h | h) <;> subst h <;> rfl
  · rintro (h | h) <;> subst h <;> rfl
  · rintro h; subst h; rfl
  · intro h
    simp only [handleError]
    rw [if_neg (by omega), if_neg (by omega), if_neg (by omega), if_pos h]
    rfl
  · intro hx
    rw [show (handleError 400 body).statusCode = some 422 from rfl] at hx
    exact absurd (Option.some.inj hx) (by decide)
  · intro hx
    rw [show (handleError 403 body).statusCode = some 401 from rfl] at hx
    exact absurd (Option.some.inj hx) (by decide)
  · intro h
    have h500 : (handleError status body).statusCode = some 500 := by
      simp only [handleError]
      rw [if_neg (by omega), if_neg (by omega), if_neg (by omega),
        if_pos (by omega)]
      rfl
    rw [h500]
    intro hx
    have := Option.some.inj hx
    omega
  · intro _ h1 h2 h3 h4
    simp only [handleError]
    rw [if_neg h1, if_neg h2, if_neg h3, if_neg h4]
    rfl

/-- Witness for C10 at the concrete statuses 400, 403, 503 and 418. -/
theorem c10_witness :
    (handleError 400 Json.null).statusCode = some 422 ∧
    (handleError 403 Json.null).statusCode = some 401 ∧
    (handleError 503 Json.null).statusCode = some 500 ∧
    (handleError 418 Json.null).statusCode = some 418 :=
  ⟨(c10_statusCode_constants 400 Json.null).1 (Or.inl rfl),
   (c10_statusCode_constants 403 Json.null).2.1 (Or.inr rfl),
   (c10_statusCode_constants 503 Json.null).2.2.2.1 (by decide),
   (c10_statusCode_constants 418 Json.null).2.2.2.2.2.2.2
     (by decide) (by decide) (by decide) (by decide) (by decide)⟩

/-! ## Claims about authentication -/

theorem setHeader_cons_ne {k' k : String} (h : k' ≠ k) (v' v : String)
    (rest : List (String × String)) :
    setHeader ((k', v') :: rest) k v = (k', v') :: setHeader rest k v := by
  by_cases hr : rest.any (fun p => p.1 = k) = true
  · simp [setHeader, h, hr]
  · simp [setHeader, h, hr]

theorem assocLookup_setHeader (hs : List (String × String)) (k v : String) :
    assocLookup (setHeader hs k v) k = some v := by
  induction hs with
  | nil => simp [setHeader, assocLookup]
  | cons p rest ih =>
    obtain ⟨k', v'⟩ := p
    by_cases h : k' = k
    · subst h
      simp [setHeader, assocLookup]
    · rw [setHeader_cons_ne h]
      simp only [assocLookup, if_neg h]
      exact ih

/-- C6: whenever credentials are configured — by the constructor or by a later
`setBasicAuth` — the outgoing headers of every request (the verb helpers all go
through `makeRequest`, and `stream` applies the same `addAuthentication`)
carry `Authorization: Basic base64(username + ":" + token)` computed from the
currently configured pair; with no credentials configured the headers pass
through unchanged, so no Authorization header is added. -/
theorem c6_basic_auth_header (c : SmtpClient) (hs : List (String × String))
    (u t : String) :
    (c.basicAuth = some ⟨u, t⟩ →
      assocLookup (makeRequestHeaders c hs) "Authorization" =
        some ("Basic " ++ base64OfString (u ++ ":" ++ t))) ∧
    (c.basicAuth = none → makeRequestHeaders c hs = hs) ∧
    (streamRequestHeaders c hs = makeRequestHeaders c hs) ∧
    (assocLookup (makeRequestHeaders (c.setBasicAuth u t) hs) "Authorization" =
      some ("Basic " ++ base64OfString (u ++ ":" ++ t))) := by
  refine ⟨fun hauth => ?_, fun hnone => ?_, rfl, ?_⟩
  · simp only [makeRequestHeaders, addAuthentication, hauth]
    exact assocLookup_setHeader hs _ _
  · simp [makeRequestHeaders, addAuthentication, hnone]
  · simp only [makeRequestHeaders, addAuthentication, SmtpClient.setBasicAuth]
    exact assocLookup_setHeader hs _ _

/-- Witness for C6: a client built with credentials `user`/`tok` sends
`Authorization: Basic dXNlcjp0b2s=`; a client without credentials leaves the
headers unchanged. -/
theorem c6_witness :
    (SmtpClient.create (some "user") (some "tok")
        "https://smtp-app.kirim.email".data).basicAuth = some ⟨"user", "tok"⟩ ∧
    assocLookup
        (makeRequestHeaders
          (SmtpClient.create (some "user") (some "tok")
            "https://smtp-app.kirim.email".data) [])
        "Authorization"
      = some ("Basic " ++ base64OfString ("user" ++ ":" ++ "tok")) ∧
    "Basic " ++ base64OfString ("user" ++ ":" ++ "tok") = "Basic dXNlcjp0b2s=" ∧
    makeRequestHeaders ⟨none, []⟩ [("Accept", "application/json")] =
      [("Accept", "application/json")] :=
  ⟨rfl,
   (c6_basic_auth_header _ [] "user" "tok").1 rfl,
   rfl,
   (c6_basic_auth_header ⟨none, []⟩ [("Accept", "application/json")] "" "").2.1 rfl⟩

/-! ## Claims about the retry policy -/

theorem kyRetryRun_retry_step {r : KyResponse}
    (hr : kyRetries defaultRetryOptions r) {k : Nat} (hk : k < 3)
    (rest : List KyResponse) :
    kyRetryRun defaultRetryOptions "get" k (r :: rest) =
      match kyRetryRun defaultRetryOptions "get" (k + 1) rest with
      | some (res, n) => some (res, n + 1)
      | none => none := by
  have hs' := hr.1
  simp only [defaultRetryOptions, List.mem_cons, List.not_mem_nil, or_false]
    at hs'
  have hok : ¬(200 ≤ r.status ∧ r.status ≤ 299) := by
    rcases hs' with h | h | h | h | h | h | h <;> rw [h] <;> decide
  simp only [kyRetryRun]
  rw [if_neg hok, if_pos ⟨by decide, hk, hr⟩]

theorem kyRetryRun_calls_le (opts : RetryOptions) (method : String) :
    ∀ (responses : List KyResponse) (k : Nat) (r : Except Nat Nat) (n : Nat),
      k ≤ opts.limit →
      kyRetryRun opts method k responses = some (r, n) → n + k ≤ opts.limit + 1 := by
  intro responses
  induction responses with
  | nil => intro k r n _ h; simp [kyRetryRun] at h
  | cons s rest ih =>
    intro k r n hk h
    simp only [kyRetryRun] at h
    by_cases hok : 200 ≤ s.status ∧ s.status ≤ 299
    · rw [if_pos hok] at h
      simp only [Option.some.injEq, Prod.mk.injEq] at h
      omega
    · rw [if_neg hok] at h
      by_cases hretry : method ∈ opts.methods ∧ k < opts.limit ∧
          kyRetries opts s
      · rw [if_pos hretry] at h
        cases hrec : kyRetryRun opts method (k + 1) rest with
        | none => rw [hrec] at h; simp at h
        | some p =>
          obtain ⟨r', n'⟩ := p
          rw [hrec] at h
          simp only [Option.some.injEq, Prod.mk.injEq] at h
          have hrec2 := ih (k + 1) r' n' (by omega) hrec
          omega
      · rw [if_neg hretry] at h
        simp only [Option.some.injEq, Prod.mk.injEq] at h
        omega

/-- C7, counterexample.  Two refutations of the claim as stated.  First, the
bound: under the configured policy (`limit: 3` in ky = up to 3 retries AFTER
the initial attempt), a GET scripted with three bare transient 503s followed
by a 200 makes 4 underlying HTTP calls and succeeds, which a bound of 3 total
attempts would forbid.  Second, the transient set: 413 is in the claim's
transient list, but ky does not retry a 413 that carries no `Retry-After`
header — a GET scripted 413, 413, 200 makes exactly 1 call and throws instead
of succeeding on attempt 3. -/
theorem c7_counterexample :
    runRequest defaultRetryOptions "get"
        [bare 503, bare 503, bare 503, bare 200] = some (Except.ok 200, 4) ∧
    runRequest defaultRetryOptions "get" [bare 413, bare 413, bare 200] =
      some (Except.error 413, 1) :=
  ⟨rfl, rfl⟩

/-- C7, amended: for a GET whose first two underlying calls return responses
ky retries — a status in the configured set 408, 413, 429, 500, 502, 503, 504,
where a 413 additionally needs a usable `Retry-After` header (ky treats a bare
413 as permanent) — and whose third call returns 200, the call succeeds after
exactly 3 underlying HTTP calls.  A bare 413 surfaces after exactly 1 call; a
non-transient 400 makes exactly 1 call; POST is never retried (one underlying
call whatever the outcome).  The default bound is `limit: 3` ky retries after
the initial attempt — at most 4 total underlying calls, not 3 total
attempts. -/
theorem c7_retry_behavior :
    (∀ r1 r2 : KyResponse, kyRetries defaultRetryOptions r1 →
      kyRetries defaultRetryOptions r2 →
      runRequest defaultRetryOptions "get" [r1, r2, bare 200] =
        some (Except.ok 200, 3)) ∧
    (∀ rest, runRequest defaultRetryOptions "get" (bare 413 :: rest) =
      some (Except.error 413, 1)) ∧
    (∀ (h : Bool) rest,
      runRequest defaultRetryOptions "get" (⟨400, h⟩ :: rest) =
        some (Except.error 400, 1)) ∧
    (∀ (r : KyResponse) rest,
      runRequest defaultRetryOptions "post" (r :: rest) =
        some ((if 200 ≤ r.status ∧ r.status ≤ 299 then Except.ok r.status
          else Except.error r.status), 1)) ∧
    (∀ (method : String) (responses : List KyResponse) (res : Except Nat Nat)
        (n : Nat),
      runRequest defaultRetryOptions method responses = some (res, n) →
        n ≤ 4) := by
  refine ⟨fun r1 r2 h1 h2 => ?_, fun rest => ?_, fun h rest => ?_,
    fun r rest => ?_, fun method responses res n hrun => ?_⟩
  · rw [runRequest, kyRetryRun_retry_step h1 (by decide),
      kyRetryRun_retry_step h2 (by decide)]
    rfl
  · rw [runRequest]
    simp only [kyRetryRun]
    rw [if_neg (by decide), if_neg (fun hc => absurd hc.2.2 (by decide))]
    rfl
  · rw [runRequest]
    simp only [kyRetryRun]
    rw [if_neg (by decide),
      if_neg (fun hc =>
        absurd (show (400 : Nat) ∈ defaultRetryOptions.statusCodes
          from hc.2.2.1) (by decide))]
  · rw [runRequest]
    simp only [kyRetryRun]
    by_cases hok : 200 ≤ r.status ∧ r.status ≤ 299
    · rw [if_pos hok, if_pos hok]
    · rw [if_neg hok, if_neg hok,
        if_neg (fun hc => absurd hc.1 (by decide))]
  · have := kyRetryRun_calls_le defaultRetryOptions method responses 0 res n
      (Nat.zero_le _) hrun
    rw [show defaultRetryOptions.limit = 3 from rfl] at this
    omega

/-- Witness for C7 at concrete scripts: a bare 503 and a 413 with
`Retry-After` are both retried (success in 3 calls), a bare 413 and a 400
stop after 1 call, POST makes 1 call, and the 4-call run meets the bound. -/
theorem c7_witness :
    kyRetries defaultRetryOptions (bare 503) ∧
    kyRetries defaultRetryOptions (withRetryAfter 413) ∧
    runRequest defaultRetryOptions "get"
        [bare 503, withRetryAfter 413, bare 200] = some (Except.ok 200, 3) ∧
    runRequest defaultRetryOptions "get" [bare 413] =
      some (Except.error 413, 1) ∧
    runRequest defaultRetryOptions "get" [⟨400, false⟩] =
      some (Except.error 400, 1) ∧
    runRequest defaultRetryOptions "post" [bare 503] =
      some ((if 200 ≤ (bare 503).status ∧ (bare 503).status ≤ 299
        then Except.ok (bare 503).status
        else Except.error (bare 503).status), 1) ∧
    (4 : Nat) ≤ 4 :=
  ⟨by decide, by decide,
   c7_retry_behavior.1 (bare 503) (withRetryAfter 413) (by decide) (by decide),
   c7_retry_behavior.2.1 [],
   c7_retry_behavior.2.2.1 false [],
   c7_retry_behavior.2.2.2.1 (bare 503) [],
   c7_retry_behavior.2.2.2.2 "get" [bare 503, bare 503, bare 503, bare 200]
     (Except.ok 200) 4 rfl⟩

/-! ## Claims about URL construction -/

/-- C8, counterexample: the four slash decorations do not behave identically.
Joining succeeds for an endpoint without a leading slash, but an endpoint WITH
a leading slash makes the ky backend throw (no URL is built at all), because
`prefixUrl` forbids a leading slash on the input. -/
theorem c8_counterexample :
    effectiveUrl "https://smtp-app.kirim.email".data "api/domains".data =
      some "https://smtp-app.kirim.email/api/domains".data ∧
    effectiveUrl "https://smtp-app.kirim.email".data "/api/domains".data =
      none :=
  ⟨rfl, rfl⟩

/-- C8, amended: for a base URL with or without a single trailing slash and an
endpoint without a leading slash, the effective URL is the same, with exactly
one separator (no `//`, no missing `/`); an endpoint with a leading slash is
not joined at all — the backend rejects the request, with either base form. -/
theorem c8_url_join (base endpoint : List Char)
    (hb : base.getLast? ≠ some '/') (he : endpoint.head? ≠ some '/') :
    effectiveUrl base endpoint = some (base ++ '/' :: endpoint) ∧
    effectiveUrl (base ++ ['/']) endpoint = some (base ++ '/' :: endpoint) ∧
    effectiveUrl base ('/' :: endpoint) = none ∧
    effectiveUrl (base ++ ['/']) ('/' :: endpoint) = none := by
  have hstrip : stripTrailingSlash base = base := by
    simp [stripTrailingSlash, hb]
  have hstrip2 : stripTrailingSlash (base ++ ['/']) = base := by
    simp [stripTrailingSlash, List.getLast?_concat]
  refine ⟨?_, ?_, ?_, ?_⟩
  · rw [effectiveUrl, hstrip]
    simp [kyJoinUrl, he, hb]
  · rw [effectiveUrl, hstrip2]
    simp [kyJoinUrl, he, hb]
  · rw [effectiveUrl, hstrip]
    simp [kyJoinUrl]
  · rw [effectiveUrl, hstrip2]
    simp [kyJoinUrl]

/-- Witness for C8 at the default base URL and a typical endpoint path. -/
theorem c8_witness :
    "https://smtp-app.kirim.email".data.getLast? ≠ some '/' ∧
    "api/domains/example.com".data.head? ≠ some '/' ∧
    (effectiveUrl "https://smtp-app.kirim.email".data
        "api/domains/example.com".data =
      some ("https://smtp-app.kirim.email".data ++
        '/' :: "api/domains/example.com".data) ∧
    effectiveUrl ("https://smtp-app.kirim.email".data ++ ['/'])
        "api/domains/example.com".data =
      some ("https://smtp-app.kirim.email".data ++
        '/' :: "api/domains/example.com".data) ∧
    effectiveUrl "https://smtp-app.kirim.email".data
        ('/' :: "api/domains/example.com".data) = none ∧
    effectiveUrl ("https://smtp-app.kirim.email".data ++ ['/'])
        ('/' :: "api/domains/example.com".data) = none) :=
  ⟨by decide, by decide, c8_url_join _ _ (by decide) (by decide)⟩

/-! ## Claims about query-parameter serialization -/

/-- C9, counterexample: a key present in the params record with value
`undefined` IS serialized, with the literal string value `"undefined"` — the
WebIDL record conversion behind `new URLSearchParams(params)` stringifies
every own property, and ToString(undefined) is `"undefined"`. -/
theorem c9_counterexample :
    URLSearchParams.ofRecord [("page", JsPrim.undef)] =
      [("page", "undefined")] := rfl

theorem assocLookup_ofRecord_eq_none (params : List (String × JsPrim))
    (k : String) :
    (∀ v, (k, v) ∉ params) →
      assocLookup (URLSearchParams.ofRecord params) k = none := by
  induction params with
  | nil => intro _; rfl
  | cons p rest ih =>
    intro habs
    obtain ⟨k', v'⟩ := p
    have hk : k' ≠ k := fun h =>
      habs v' (by rw [h]; exact List.mem_cons_self _ _)
    simp only [URLSearchParams.ofRecord, List.map_cons, assocLookup, if_neg hk]
    exact ih fun v hv => habs v (List.mem_cons_of_mem _ hv)

/-- C9, amended: a key that is absent from the params record is omitted from
the query entirely; every key present in the record is serialized with its
value put through the single canonical ToString rule — which stringifies an
explicit `undefined` value as the literal `"undefined"` rather than omitting
the key. -/
theorem c9_query_serialization (params : List (String × JsPrim)) (k : String) :
    ((∀ v, (k, v) ∉ params) →
      assocLookup (URLSearchParams.ofRecord params) k = none) ∧
    (∀ v, (k, v) ∈ params →
      (k, jsToString v) ∈ URLSearchParams.ofRecord params) ∧
    ((k, JsPrim.undef) ∈ params →
      (k, "undefined") ∈ URLSearchParams.ofRecord params) := by
  refine ⟨assocLookup_ofRecord_eq_none params k, fun v hv => ?_, fun hu => ?_⟩
  · exact List.mem_map_of_mem (fun p => (p.1, jsToString p.2)) hv
  · exact List.mem_map_of_mem (fun p => (p.1, jsToString p.2)) hu

/-- Witness for C9 on a concrete record with an `undefined`-valued key, an
integer-valued key, and an absent key. -/
theorem c9_witness :
    assocLookup (URLSearchParams.ofRecord
        [("page", JsPrim.undef), ("limit", JsPrim.intV 10)]) "absent" = none ∧
    ("page", "undefined") ∈ URLSearchParams.ofRecord
        [("page", JsPrim.undef), ("limit", JsPrim.intV 10)] ∧
    ("limit", jsToString (JsPrim.intV 10)) ∈ URLSearchParams.ofRecord
        [("page", JsPrim.undef), ("limit", JsPrim.intV 10)] := by
  have habs : ∀ v,
      ("absent", v) ∉ [("page", JsPrim.undef), ("limit", JsPrim.intV 10)] := by
    intro v hv
    simp only [List.mem_cons, List.not_mem_nil, or_false] at hv
    rcases hv with h | h
    · exact absurd (show ("absent" : String) = "page" from congrArg Prod.fst h)
        (by decide)
    · exact absurd (show ("absent" : String) = "limit" from congrArg Prod.fst h)
        (by decide)
  exact ⟨(c9_query_serialization _ "absent").1 habs,
    (c9_query_serialization _ "page").2.2 (by decide),
    (c9_query_serialization _ "limit").2.1 (JsPrim.intV 10) (by decide)⟩
